import Mathlib

/-!
Verification of the news-archive consistency pipeline:
`fetch_ai_news.py` (fetch, retention sweep, manifest rebuild) and
`update_index.py` (standalone manifest rebuild).

Modelling conventions:
* A Python `datetime` produced by `strptime(..., "%Y-%m-%d")` always has a
  zero time-of-day, as does `datetime.min`; every datetime the pipeline
  compares therefore carries only its calendar date, modelled by `Date`.
* `Date` comparison in Python is lexicographic on `(year, month, day)`
  (`dateLt`/`dateLe`); `now - timedelta(days=30)` shifts the proleptic
  Gregorian ordinal (`toOrdinal`, Python's `date.toordinal`) by 30, so the
  sweep's cutoff test `file_date.date() < (now - timedelta(days=30)).date()`
  is `(toOrdinal d : Int) < toOrdinal nowDate - 30`.
* `re.search` over the fixed-width pattern `\d{4}-\d{2}-\d{2}` is the
  leftmost-position scan `searchDatePattern`; Python's `\d` also accepts
  non-ASCII digits, but archive identifiers are ASCII, and we model digits
  as ASCII `Char.isDigit`.
* A raised exception (`ValueError` from `strptime` on an in-pattern but
  invalid calendar date) is modelled as `none`; a function that returns
  normally yields `some`.
* Filesystem state is passed explicitly: a directory is its enumeration
  order, a `List` of file names in the order `Path.glob` yields them
  (unspecified by the OS, hence a parameter).
-/

/-- A Python calendar date (the date part of a `datetime`). -/
structure Date where
  year : Nat
  month : Nat
  day : Nat
deriving DecidableEq, Repr

/-- `datetime.min` — the sentinel returned when no date pattern is found. -/
def dateMin : Date := ⟨1, 1, 1⟩

/-- Python `calendar.isleap` / the leap rule used by `datetime`. -/
def isLeapYear (y : Nat) : Bool :=
  y % 4 == 0 && (y % 100 != 0 || y % 400 == 0)

/-- Days in a month of the proleptic Gregorian calendar. -/
def daysInMonth (y m : Nat) : Nat :=
  if m = 2 then (if isLeapYear y then 29 else 28)
  else if m = 4 ∨ m = 6 ∨ m = 9 ∨ m = 11 then 30
  else 31

/-- The ranges `datetime.date(y, m, d)` accepts (`strptime` succeeds exactly
on these: `MINYEAR = 1`, `MAXYEAR = 9999`, month and day in range). -/
def validDate (y m d : Nat) : Bool :=
  1 ≤ y && y ≤ 9999 && 1 ≤ m && m ≤ 12 && 1 ≤ d && d ≤ daysInMonth y m

/-- Days in year `y` strictly before month `m` (Python `_days_before_month`). -/
def daysBeforeMonth (y m : Nat) : Nat :=
  (List.range (m - 1)).foldl (fun acc i => acc + daysInMonth y (i + 1)) 0

/-- Python `date.toordinal`: day number in the proleptic Gregorian calendar,
with `date(1, 1, 1).toordinal() = 1`. -/
def toOrdinal (dt : Date) : Nat :=
  365 * (dt.year - 1) + (dt.year - 1) / 4 - (dt.year - 1) / 100
    + (dt.year - 1) / 400 + daysBeforeMonth dt.year dt.month + dt.day

/-- Python `date.__lt__`: lexicographic on `(year, month, day)`. -/
def dateLt (a b : Date) : Bool :=
  decide (a.year < b.year ∨ (a.year = b.year ∧
    (a.month < b.month ∨ (a.month = b.month ∧ a.day < b.day))))

/-- Python `date.__le__`. -/
def dateLe (a b : Date) : Bool :=
  dateLt a b || decide (a = b)

/-- Numeric value of an ASCII digit. -/
def digitVal (c : Char) : Nat := c.toNat - 48

/-- One attempt of the regex `\d{4}-\d{2}-\d{2}` at the head of the
character list (the pattern is fixed-width, so matching at a position is a
single window test); returns the year, month and day digit groups. -/
def datePatternAt : List Char → Option (Nat × Nat × Nat)
  | a :: b :: c :: d :: s1 :: e :: f :: s2 :: g :: k :: _ =>
    if a.isDigit && b.isDigit && c.isDigit && d.isDigit && s1 == '-'
        && e.isDigit && f.isDigit && s2 == '-' && g.isDigit && k.isDigit
    then some (1000 * digitVal a + 100 * digitVal b + 10 * digitVal c + digitVal d,
               10 * digitVal e + digitVal f,
               10 * digitVal g + digitVal k)
    else none
  | _ => none

/-- `re.search(r'(\d{4}-\d{2}-\d{2})', s)`: try each start position left to
right, return the first (leftmost) match. -/
def searchDatePattern : List Char → Option (Nat × Nat × Nat)
  | [] => none
  | c :: rest =>
    match datePatternAt (c :: rest) with
    | some t => some t
    | none => searchDatePattern rest

/-- `extract_date_from_filename` (identical in `fetch_ai_news.py` lines 74-79
and `update_index.py` lines 13-18): search for the first `\d{4}-\d{2}-\d{2}`
match; if found, `strptime` it (raising `ValueError` — modelled as `none` —
when the digits are not a valid calendar date); otherwise return
`datetime.min`. -/
def extract_date_from_filename (filename : String) : Option Date :=
  match searchDatePattern filename.data with
  | some (y, m, d) => if validDate y m d then some ⟨y, m, d⟩ else none
  | none => some dateMin

/-- `pathlib.Path.glob('*.json')` membership: `pathlib` translates `*` to
"any run of characters" with no special case for leading dots, so a name is
matched exactly when it ends in `.json`. -/
def jsonGlob (f : String) : Bool :=
  ".json".data.isSuffixOf f.data

/-- The archive scan shared by both builders (`fetch_ai_news.py` lines
109-113, `update_index.py` lines 28-32): every `*.json` entry of the news
directory except `index.json`, in enumeration order. -/
def scanNewsFiles (listing : List String) : List String :=
  listing.filter (fun f => jsonGlob f && f != "index.json")

/-- The sort key actually applied to each surviving name: both builders only
reach the sort after every `extract_date_from_filename` call has returned
without raising, so the `dateMin` default of `getD` is never used there. -/
def sortKey (f : String) : Date :=
  (extract_date_from_filename f).getD dateMin

/-- `key=extract_date_from_filename` raises on the first name whose date
digits are invalid; `True` exactly when the whole sort succeeds. -/
def sortKeysOk (files : List String) : Bool :=
  files.all (fun f => (extract_date_from_filename f).isSome)

/-- The order `list.sort(key=extract_date_from_filename, reverse=True)`
realises: `a` may precede `b` when `a`'s key is at least `b`'s. -/
def newerEq (a b : String) : Prop :=
  dateLe (sortKey b) (sortKey a) = true

instance : DecidableRel newerEq := fun a b => by
  unfold newerEq; infer_instance

instance : IsTotal String newerEq where
  total := by
    intro a b
    unfold newerEq dateLe dateLt
    rcases sortKey a with ⟨y1, m1, d1⟩
    rcases sortKey b with ⟨y2, m2, d2⟩
    simp only [Bool.or_eq_true, decide_eq_true_eq, Date.mk.injEq]
    omega

instance : IsTrans String newerEq where
  trans := by
    intro a b c
    unfold newerEq dateLe dateLt
    rcases sortKey a with ⟨y1, m1, d1⟩
    rcases sortKey b with ⟨y2, m2, d2⟩
    rcases sortKey c with ⟨y3, m3, d3⟩
    simp only [Bool.or_eq_true, decide_eq_true_eq, Date.mk.injEq]
    omega

/-- Python's `list.sort(key=extract_date_from_filename, reverse=True)`:
stable, descending by extracted date. Insertion sort with `newerEq` places
each element before the first earlier-keyed or equal-keyed element already
sorted, which is exactly the stable descending order Python produces. -/
def sortByDateDesc (files : List String) : List String :=
  files.insertionSort newerEq

/-- The manifest record (`index.json` content); `last_updated` is the
opaque `isoformat()` string of the regeneration instant. -/
structure Manifest where
  last_updated : String
  total_files : Nat
  files : List String
deriving DecidableEq, Repr

/-- Outcome of one builder run: `written` (manifest file overwritten),
`skipped` (returned without writing, message printed — `""` for the silent
early return of `update_index_json`), or `error` (an exception escaped, no
write). -/
inductive IndexResult where
  | written (m : Manifest)
  | skipped (msg : String)
  | error
deriving DecidableEq, Repr

/-- `update_index_json` (`fetch_ai_news.py` lines 102-129): bare `return`
when the directory is missing; otherwise scan, sort (propagating a key
exception), and write the manifest — including when the scan is empty. -/
def update_index_json (nowIso : String) (dirExists : Bool)
    (listing : List String) : IndexResult :=
  if !dirExists then .skipped ""
  else
    let json_files := scanNewsFiles listing
    if sortKeysOk json_files then
      let sorted := sortByDateDesc json_files
      .written ⟨nowIso, sorted.length, sorted⟩
    else .error

/-- `build_news_index` (`update_index.py` lines 20-56): like
`update_index_json` but with warning messages and an extra guard that skips
the write when the scan found no entries. -/
def build_news_index (nowIso : String) (dirExists : Bool)
    (listing : List String) : IndexResult :=
  if !dirExists then .skipped "Error: news/ directory not found!"
  else
    let json_files := scanNewsFiles listing
    if json_files.isEmpty then .skipped "No news JSON files found!"
    else if sortKeysOk json_files then
      let sorted := sortByDateDesc json_files
      .written ⟨nowIso, sorted.length, sorted⟩
    else .error

/-- The observable manifest content a builder run produced, ignoring
`last_updated` (the two scripts stamp different instants). -/
def filesPart : IndexResult → Option (Nat × List String)
  | .written m => some (m.total_files, m.files)
  | _ => none

/-- `cleanup_old_news_files` (`fetch_ai_news.py` lines 81-100) on the news
directory enumeration, given the run's UTC calendar date `nowDate`
(`now.date()`). Walks the `*.json` entries in order, skips `index.json`,
and unlinks a file when its extracted date is not the sentinel and is
strictly before `(now - timedelta(days=30)).date()`. Returns the unlinked
names and whether a `ValueError` escaped the loop (aborting it, with the
deletions made so far already durable). -/
def cleanup_old_news_files (nowDate : Date) : List String → List String × Bool
  | [] => ([], false)
  | f :: rest =>
    if jsonGlob f = false then cleanup_old_news_files nowDate rest
    else if f = "index.json" then cleanup_old_news_files nowDate rest
    else
      match extract_date_from_filename f with
      | none => ([], true)
      | some d =>
        let r := cleanup_old_news_files nowDate rest
        if d ≠ dateMin ∧ (toOrdinal d : Int) < (toOrdinal nowDate : Int) - 30
        then (f :: r.1, r.2) else r

/-- The per-file deletion test of the sweep, as a predicate: a `*.json`
entry other than `index.json` whose extracted date exists, is not the
sentinel, and is strictly before the cutoff calendar date. -/
def shouldRemove (nowDate : Date) (f : String) : Bool :=
  jsonGlob f && f != "index.json" &&
    (match extract_date_from_filename f with
     | some d =>
       decide (d ≠ dateMin ∧ (toOrdinal d : Int) < (toOrdinal nowDate : Int) - 30)
     | none => false)

/-- The entry filename `fetch_ai_news.py` line 22 builds from the run's
`YYYY-MM-DD_HH-MM-SS` timestamp. -/
def entryFileName (timestamp : String) : String :=
  "grok_news_summary_" ++ timestamp ++ ".json"

/-- Observable archive effects of one run of the `fetch_ai_news.py` module
flow (lines 132-165). `savedEntry`: the entry file written, if any;
`removedFiles`: names the sweep unlinked; `indexResult`: outcome of
`update_index_json`, `none` when it never ran; `report`: the failure
message printed, `none` on the success path. -/
structure FetchRunResult where
  savedEntry : Option String
  removedFiles : List String
  indexResult : Option IndexResult
  report : Option String
deriving DecidableEq, Repr

/-- The module flow of `fetch_ai_news.py` lines 132-165, shallowly embedded
over the HTTP outcome: `statusCode` and `bodyText` from the response,
`choices` the `choices` field of the parsed body (`none` when absent, the
list of message contents otherwise). `listing` enumerates the news
directory before the run; the freshly written entry appears at the end of
the subsequent `glob` enumerations (its position is filesystem-defined; any
position gives the same deletions and the same sorted manifest). The
`os.makedirs(output_folder, exist_ok=True)` at line 21 runs at import time,
so the directory exists whenever `update_index_json` runs. A sweep
exception aborts the run before `update_index_json`. -/
def fetch_main (statusCode : Nat) (bodyText : String)
    (choices : Option (List String)) (timestamp : String) (nowDate : Date)
    (nowIso : String) (listing : List String) : FetchRunResult :=
  if statusCode ≠ 200 then
    ⟨none, [], none, some ("Error: " ++ toString statusCode ++ " - " ++ bodyText)⟩
  else
    match choices with
    | some (_ :: _) =>
      let newListing := listing ++ [entryFileName timestamp]
      let swept := cleanup_old_news_files nowDate newListing
      if swept.2 then
        ⟨some (entryFileName timestamp), swept.1, none, none⟩
      else
        let survivors := newListing.filter (fun f => !(swept.1.contains f))
        ⟨some (entryFileName timestamp), swept.1,
          some (update_index_json nowIso true survivors), none⟩
    | _ => ⟨none, [], none, some "No choices in response"⟩

/-- Modelled from the spec: one collapsible block of the rendered HTML
fragment (spec section 4.5 — the HTML Renderer has no source file under
`src/`). `date` is the entry's extracted date shown in the header, `body`
its transformed summary text, `expanded` the expand/collapse mark. -/
structure RenderedBlock where
  date : Date
  body : String
  expanded : Bool
deriving DecidableEq, Repr

/-- Modelled from the spec: the renderer walks the loaded entries in
newest-first order keeping a position counter; the block at position `i`
is expanded exactly when `i = 0`. -/
def renderBlocksFrom (i : Nat) : List (Date × String) → List RenderedBlock
  | [] => []
  | e :: rest => ⟨e.1, e.2, i == 0⟩ :: renderBlocksFrom (i + 1) rest

/-- Modelled from the spec: the HTML Renderer's block list over the loaded
entries in newest-first order, expanded iff first (spec section 4.5). -/
def renderNewsHtml (entries : List (Date × String)) : List RenderedBlock :=
  renderBlocksFrom 0 entries

theorem searchDatePattern_eq_none_iff :
    ∀ cs : List Char,
      searchDatePattern cs = none ↔ ∀ i, datePatternAt (cs.drop i) = none
  | [] => by simp [searchDatePattern, datePatternAt]
  | c :: rest => by
    cases hhead : datePatternAt (c :: rest) with
    | some t =>
      simp only [searchDatePattern, hhead]
      constructor
      · intro h; exact absurd h (by simp)
      · intro h
        have h0 := h 0
        rw [List.drop_zero, hhead] at h0
        exact absurd h0 (by simp)
    | none =>
      have ih := searchDatePattern_eq_none_iff rest
      simp only [searchDatePattern, hhead]
      constructor
      · intro h i
        cases i with
        | zero => rw [List.drop_zero]; exact hhead
        | succ j => rw [List.drop_succ_cons]; exact ih.mp h j
      · intro h
        exact ih.mpr fun j => by
          have hj := h (j + 1)
          rwa [List.drop_succ_cons] at hj

theorem searchDatePattern_eq_some_iff :
    ∀ (cs : List Char) (t : Nat × Nat × Nat),
      searchDatePattern cs = some t ↔
        ∃ i, datePatternAt (cs.drop i) = some t
          ∧ ∀ j < i, datePatternAt (cs.drop j) = none
  | [], t => by simp [searchDatePattern, datePatternAt]
  | c :: rest, t => by
    cases hhead : datePatternAt (c :: rest) with
    | some u =>
      simp only [searchDatePattern, hhead]
      constructor
      · intro h
        refine ⟨0, ?_, ?_⟩
        · rw [List.drop_zero, hhead]; exact h
        · intro j hj; exact absurd hj (Nat.not_lt_zero j)
      · rintro ⟨i, hi, hleast⟩
        cases i with
        | zero => rw [List.drop_zero, hhead] at hi; exact hi
        | succ k =>
          have h0 := hleast 0 (Nat.succ_pos k)
          rw [List.drop_zero, hhead] at h0
          exact absurd h0 (by simp)
    | none =>
      have ih := searchDatePattern_eq_some_iff rest t
      simp only [searchDatePattern, hhead]
      constructor
      · intro h
        obtain ⟨i, hi, hleast⟩ := ih.mp h
        refine ⟨i + 1, by rwa [List.drop_succ_cons], ?_⟩
        intro j hj
        cases j with
        | zero => rw [List.drop_zero]; exact hhead
        | succ k =>
          rw [List.drop_succ_cons]
          exact hleast k (by omega)
      · rintro ⟨i, hi, hleast⟩
        cases i with
        | zero => rw [List.drop_zero, hhead] at hi; exact absurd hi (by simp)
        | succ k =>
          apply ih.mpr
          refine ⟨k, by rwa [List.drop_succ_cons] at hi, ?_⟩
          intro j hj
          have hj1 := hleast (j + 1) (by omega)
          rwa [List.drop_succ_cons] at hj1

/-- C2 (corrected): `extract_date_from_filename` raises `ValueError`
(modelled as `none`) exactly when the leftmost `\d{4}-\d{2}-\d{2}` match in
the input is not a valid calendar date; on every other input it returns
normally (a parsed date or the `datetime.min` sentinel). -/
theorem extract_raises_iff_first_match_invalid (s : String) :
    extract_date_from_filename s = none ↔
      ∃ i y m d, datePatternAt (s.data.drop i) = some (y, m, d)
        ∧ (∀ j < i, datePatternAt (s.data.drop j) = none)
        ∧ validDate y m d = false := by
  cases hs : searchDatePattern s.data with
  | none =>
    simp only [extract_date_from_filename, hs]
    constructor
    · intro h; exact absurd h (by simp)
    · rintro ⟨i, y, m, d, hi, -, -⟩
      have hall := (searchDatePattern_eq_none_iff s.data).mp hs i
      rw [hall] at hi
      exact absurd hi (by simp)
  | some t =>
    obtain ⟨y0, m0, d0⟩ := t
    simp only [extract_date_from_filename, hs]
    constructor
    · intro h
      by_cases hv : validDate y0 m0 d0 = true
      · rw [if_pos hv] at h; exact absurd h (by simp)
      · obtain ⟨i, hi, hleast⟩ :=
          (searchDatePattern_eq_some_iff s.data (y0, m0, d0)).mp hs
        exact ⟨i, y0, m0, d0, hi, hleast, by simpa using hv⟩
    · rintro ⟨i, y, m, d, hi, hleast, hv⟩
      have hs2 : searchDatePattern s.data = some (y, m, d) :=
        (searchDatePattern_eq_some_iff s.data (y, m, d)).mpr ⟨i, hi, hleast⟩
      rw [hs] at hs2
      injection hs2 with he
      simp only [Prod.mk.injEq] at he
      obtain ⟨he1, he2, he3⟩ := he
      subst he1; subst he2; subst he3
      simp [hv]

/-- C2 counterexample: the claim says the extractor never fails, but on
`"9999-99-99"` the regex matches and `strptime` raises `ValueError`
(month 99), modelled as `none`. -/
theorem extract_not_total_cex :
    extract_date_from_filename "9999-99-99" = none := by decide

/-- C2 witness: the corrected characterization applied at a concrete input
whose leftmost match `1234-56-78` is not a valid calendar date. -/
theorem extract_raises_iff_witness :
    extract_date_from_filename "1234-56-78" = none := by
  refine (extract_raises_iff_first_match_invalid "1234-56-78").mpr
    ⟨0, 1234, 56, 78, by decide, ?_, by decide⟩
  intro j hj
  exact absurd hj (Nat.not_lt_zero j)

/-- C3 (corrected): when the leftmost `\d{4}-\d{2}-\d{2}` match of the
identifier is a valid calendar date, the extractor returns exactly that
date; when no position matches at all, it returns the `datetime.min`
sentinel. (The original claim fails when an invalid match precedes a valid
date substring: the extractor then raises instead of returning the valid
date — see the counterexample.) -/
theorem extract_returns_first_valid_match (s : String) :
    (∀ i y m d, datePatternAt (s.data.drop i) = some (y, m, d) →
        (∀ j < i, datePatternAt (s.data.drop j) = none) →
        validDate y m d = true →
        extract_date_from_filename s = some ⟨y, m, d⟩)
    ∧ ((∀ i, datePatternAt (s.data.drop i) = none) →
        extract_date_from_filename s = some dateMin) := by
  constructor
  · intro i y m d hi hleast hv
    have hs : searchDatePattern s.data = some (y, m, d) :=
      (searchDatePattern_eq_some_iff s.data (y, m, d)).mpr ⟨i, hi, hleast⟩
    simp [extract_date_from_filename, hs, hv]
  · intro h
    have hs : searchDatePattern s.data = none :=
      (searchDatePattern_eq_none_iff s.data).mpr h
    simp [extract_date_from_filename, hs]

/-- C3 counterexample: `"1234-56-78_2025-01-02"` contains the valid date
substring `2025-01-02`, but the extractor raises `ValueError` on the
earlier invalid match `1234-56-78` instead of returning that date. -/
theorem extract_misses_valid_date_cex :
    datePatternAt (("1234-56-78_2025-01-02").data.drop 11) = some (2025, 1, 2)
    ∧ validDate 2025 1 2 = true
    ∧ extract_date_from_filename "1234-56-78_2025-01-02" = none := by decide

/-- C3 witness: the corrected claim applied to a real archive identifier,
whose leftmost match (at position 18) is the valid date `2025-09-24`. -/
theorem extract_first_valid_witness :
    extract_date_from_filename "grok_news_summary_2025-09-24_12-09-33.json"
      = some ⟨2025, 9, 24⟩ :=
  (extract_returns_first_valid_match _).1 18 2025 9 24 (by decide) (by decide)
    (by decide)

theorem cleanup_nocrash (nowDate : Date) (listing : List String)
    (h : ∀ g ∈ listing, jsonGlob g = true → g ≠ "index.json" →
      extract_date_from_filename g ≠ none) :
    cleanup_old_news_files nowDate listing
      = (listing.filter (shouldRemove nowDate), false) := by
  induction listing with
  | nil => simp [cleanup_old_news_files]
  | cons f rest ih =>
    have hrest := ih (fun g hg => h g (List.mem_cons_of_mem f hg))
    cases hjson : jsonGlob f with
    | false =>
      have hsr : shouldRemove nowDate f = false := by simp [shouldRemove, hjson]
      simp [cleanup_old_news_files, hjson, hsr, hrest]
    | true =>
      by_cases hidx : f = "index.json"
      · subst hidx
        have hsr : shouldRemove nowDate "index.json" = false := by
          simp [shouldRemove]
        simp [cleanup_old_news_files, hjson, hsr, hrest]
      · have hex := h f (List.mem_cons_self f rest) hjson hidx
        cases hd : extract_date_from_filename f with
        | none => exact absurd hd hex
        | some d =>
          by_cases hold :
              d ≠ dateMin ∧ (toOrdinal d : Int) < (toOrdinal nowDate : Int) - 30
          · have hsr : shouldRemove nowDate f = true := by
              simp [shouldRemove, hjson, hidx, hd, hold]
            simp [cleanup_old_news_files, hjson, hidx, hd, hold, hsr, hrest]
          · have hsr : shouldRemove nowDate f = false := by
              simp [shouldRemove, hjson, hidx, hd, hold]
            simp [cleanup_old_news_files, hjson, hidx, hd, hold, hsr, hrest]

theorem sentinel_not_removed (nowDate : Date) :
    ∀ (listing : List String) (f : String),
      extract_date_from_filename f = some dateMin →
      f ∉ (cleanup_old_news_files nowDate listing).1
  | [], f => by simp [cleanup_old_news_files]
  | g :: rest, f => by
    intro hf
    have ih := sentinel_not_removed nowDate rest f hf
    cases hjson : jsonGlob g with
    | false => simpa [cleanup_old_news_files, hjson] using ih
    | true =>
      by_cases hidx : g = "index.json"
      · simpa [cleanup_old_news_files, hjson, hidx] using ih
      · cases hd : extract_date_from_filename g with
        | none => simp [cleanup_old_news_files, hjson, hidx, hd]
        | some d =>
          by_cases hold :
              d ≠ dateMin ∧ (toOrdinal d : Int) < (toOrdinal nowDate : Int) - 30
          · simp only [cleanup_old_news_files, hjson, hidx, hd]
            rw [if_neg not_false, if_pos hold]
            intro hmem
            rcases List.mem_cons.mp hmem with rfl | hmem'
            · rw [hf] at hd
              injection hd with h2
              exact hold.1 h2.symm
            · exact ih hmem'
          · simp only [cleanup_old_news_files, hjson, hidx, hd]
            rw [if_neg not_false, if_neg hold]
            exact ih

/-- C1 (corrected): provided no `*.json` entry of the directory has a name
whose leftmost date-pattern match is an invalid calendar date (which would
raise `ValueError` and abort the sweep), the sweep deletes a dated entry
exactly when its extracted date is strictly before the calendar date 30
days before `now`; entries whose name yields the `datetime.min` sentinel
are never deleted, even by an aborted sweep. -/
theorem cleanup_removes_iff_older_than_30_days (nowDate : Date)
    (listing : List String) (f : String) (hmem : f ∈ listing)
    (hjson : jsonGlob f = true) (hidx : f ≠ "index.json") :
    ((∀ g ∈ listing, jsonGlob g = true → g ≠ "index.json" →
        extract_date_from_filename g ≠ none) →
      ∀ d, extract_date_from_filename f = some d → d ≠ dateMin →
        (f ∈ (cleanup_old_news_files nowDate listing).1 ↔
          (toOrdinal d : Int) < (toOrdinal nowDate : Int) - 30))
    ∧ (extract_date_from_filename f = some dateMin →
        f ∉ (cleanup_old_news_files nowDate listing).1) := by
  constructor
  · intro hsafe d hd hmin
    rw [cleanup_nocrash nowDate listing hsafe]
    simp only [List.mem_filter]
    constructor
    · rintro ⟨-, hsr⟩
      simp only [shouldRemove, hd, hjson, Bool.true_and, Bool.and_eq_true,
        bne_iff_ne, decide_eq_true_eq] at hsr
      exact hsr.2.2
    · intro hold
      refine ⟨hmem, ?_⟩
      simp only [shouldRemove, hd, hjson, Bool.true_and, Bool.and_eq_true,
        bne_iff_ne, decide_eq_true_eq]
      exact ⟨hidx, hmin, hold⟩
  · intro hd
    exact sentinel_not_removed nowDate listing f hd

/-- C1 counterexample: with the sweep enumerating `1234-56-78.json` first,
`strptime` raises on month 56 and the sweep aborts, so the 35-year-old,
perfectly parseable `1990-01-01.json` is not deleted — refuting the
unconditional "deletes if strictly older" direction of the claim. -/
theorem cleanup_crash_skips_stale_file_cex :
    extract_date_from_filename "1990-01-01.json" = some ⟨1990, 1, 1⟩
    ∧ (toOrdinal ⟨1990, 1, 1⟩ : Int) < (toOrdinal ⟨2025, 10, 12⟩ : Int) - 30
    ∧ "1990-01-01.json" ∉ (cleanup_old_news_files ⟨2025, 10, 12⟩
        ["1234-56-78.json", "1990-01-01.json"]).1 := by decide

/-- C1 witness: on a well-formed archive with now = 2025-10-12, the entry
dated 2025-09-01 (41 days old) is deleted by the sweep. -/
theorem cleanup_removes_iff_witness :
    "grok_news_summary_2025-09-01_12-00-00.json" ∈
      (cleanup_old_news_files ⟨2025, 10, 12⟩
        ["grok_news_summary_2025-09-01_12-00-00.json", "index.json",
         "grok_news_summary_2025-10-10_08-00-00.json"]).1 :=
  ((cleanup_removes_iff_older_than_30_days ⟨2025, 10, 12⟩
      ["grok_news_summary_2025-09-01_12-00-00.json", "index.json",
       "grok_news_summary_2025-10-10_08-00-00.json"]
      "grok_news_summary_2025-09-01_12-00-00.json"
      (by decide) (by decide) (by decide)).1 (by decide) ⟨2025, 9, 1⟩
      (by decide) (by decide)).mpr (by decide)

theorem sortByDateDesc_pairwise (l : List String) :
    (sortByDateDesc l).Pairwise
      (fun a b => dateLe (sortKey b) (sortKey a) = true) :=
  (List.sorted_insertionSort newerEq l).imp (fun h => h)

theorem update_index_json_written (t : String) (e : Bool)
    (listing : List String) (m : Manifest)
    (h : update_index_json t e listing = .written m) :
    m = ⟨t, (sortByDateDesc (scanNewsFiles listing)).length,
          sortByDateDesc (scanNewsFiles listing)⟩ := by
  simp only [update_index_json] at h
  split at h
  · exact absurd h (by simp)
  · split at h
    · injection h with h2
      exact h2.symm
    · exact absurd h (by simp)

theorem build_news_index_written (t : String) (e : Bool)
    (listing : List String) (m : Manifest)
    (h : build_news_index t e listing = .written m) :
    m = ⟨t, (sortByDateDesc (scanNewsFiles listing)).length,
          sortByDateDesc (scanNewsFiles listing)⟩ := by
  simp only [build_news_index] at h
  split at h
  · exact absurd h (by simp)
  · split at h
    · exact absurd h (by simp)
    · split at h
      · injection h with h2
        exact h2.symm
      · exact absurd h (by simp)

/-- C4 (confirmed): every manifest either builder actually writes has
`total_files` equal to the length of `files`, and `files` sorted
newest-first (non-increasing extracted date). -/
theorem manifest_total_and_sorted (t : String) (e : Bool)
    (listing : List String) (m : Manifest)
    (h : update_index_json t e listing = .written m
       ∨ build_news_index t e listing = .written m) :
    m.total_files = m.files.length
    ∧ m.files.Pairwise (fun a b => dateLe (sortKey b) (sortKey a) = true) := by
  have hm : m = ⟨t, (sortByDateDesc (scanNewsFiles listing)).length,
      sortByDateDesc (scanNewsFiles listing)⟩ := by
    rcases h with h | h
    · exact update_index_json_written t e listing m h
    · exact build_news_index_written t e listing m h
  subst hm
  exact ⟨rfl, sortByDateDesc_pairwise (scanNewsFiles listing)⟩

/-- C4 witness: a concrete builder run over two dated entries plus noise. -/
theorem manifest_invariants_witness :
    (Manifest.mk "t" 2 ["a_2025-03-04.json", "b_2025-01-01.json"]).total_files
      = (Manifest.mk "t" 2
          ["a_2025-03-04.json", "b_2025-01-01.json"]).files.length
    ∧ (Manifest.mk "t" 2 ["a_2025-03-04.json", "b_2025-01-01.json"]).files.Pairwise
        (fun a b => dateLe (sortKey b) (sortKey a) = true) :=
  manifest_total_and_sorted "t" true
    ["index.json", "b_2025-01-01.json", "a_2025-03-04.json", "readme.md"]
    (Manifest.mk "t" 2 ["a_2025-03-04.json", "b_2025-01-01.json"])
    (Or.inl (by decide))

/-- C5 counterexample: with the news directory present but holding no
entries (only the excluded `index.json` here), `update_index_json` does
write a manifest — `total_files = 0`, `files = []` — overwriting any
previous manifest, contrary to the claim. -/
theorem update_index_writes_empty_manifest_cex :
    update_index_json "2025-10-12T00:00:00+00:00" true ["index.json"]
      = .written ⟨"2025-10-12T00:00:00+00:00", 0, []⟩ := by decide

/-- C5 (corrected): when the directory is absent, neither builder writes
(each returns early; `build_news_index` prints a warning,
`update_index_json` returns silently). When the directory exists but has
no entries, `build_news_index` skips with a warning as claimed, but
`update_index_json` writes an empty manifest. -/
theorem empty_archive_builder_behavior (t u : String) (listing : List String) :
    (update_index_json t false listing = .skipped ""
      ∧ build_news_index u false listing
          = .skipped "Error: news/ directory not found!")
    ∧ (scanNewsFiles listing = [] →
        build_news_index u true listing = .skipped "No news JSON files found!"
        ∧ update_index_json t true listing = .written ⟨t, 0, []⟩) := by
  refine ⟨⟨rfl, rfl⟩, ?_⟩
  intro hscan
  constructor
  · simp [build_news_index, hscan]
  · simp [update_index_json, hscan, sortKeysOk, sortByDateDesc]

/-- C5 witness: the corrected behavior on a directory holding only the
manifest itself. -/
theorem empty_archive_builder_witness :
    build_news_index "u" true ["index.json"]
        = .skipped "No news JSON files found!"
    ∧ update_index_json "t" true ["index.json"] = .written ⟨"t", 0, []⟩ :=
  (empty_archive_builder_behavior "t" "u" ["index.json"]).2 (by decide)

/-- C6 (confirmed): on a non-2xx status or a body without a non-empty
`choices` list, the run only prints a report: no entry file is written, the
sweep never runs (no deletion), and `update_index_json` never runs. -/
theorem fetch_failure_no_archive_mutation (statusCode : Nat) (bodyText : String)
    (choices : Option (List String)) (timestamp : String) (nowDate : Date)
    (nowIso : String) (listing : List String)
    (h : statusCode ≠ 200 ∨ choices = none ∨ choices = some []) :
    (fetch_main statusCode bodyText choices timestamp nowDate nowIso
        listing).savedEntry = none
    ∧ (fetch_main statusCode bodyText choices timestamp nowDate nowIso
        listing).removedFiles = []
    ∧ (fetch_main statusCode bodyText choices timestamp nowDate nowIso
        listing).indexResult = none
    ∧ (fetch_main statusCode bodyText choices timestamp nowDate nowIso
        listing).report.isSome = true := by
  rcases h with h | h | h
  · simp [fetch_main, h]
  · subst h
    rcases eq_or_ne statusCode 200 with rfl | hs
    · simp [fetch_main]
    · simp [fetch_main, hs]
  · subst h
    rcases eq_or_ne statusCode 200 with rfl | hs
    · simp [fetch_main]
    · simp [fetch_main, hs]

/-- C6 witness: a 500 response with a well-formed body leaves the archive
untouched. -/
theorem fetch_failure_witness :
    (fetch_main 500 "boom" (some ["x"]) "2025-10-12_00-00-00" ⟨2025, 10, 12⟩
        "iso" ["grok_news_summary_1990-01-01_00-00-00.json"]).savedEntry = none
    ∧ (fetch_main 500 "boom" (some ["x"]) "2025-10-12_00-00-00" ⟨2025, 10, 12⟩
        "iso" ["grok_news_summary_1990-01-01_00-00-00.json"]).removedFiles = []
    ∧ (fetch_main 500 "boom" (some ["x"]) "2025-10-12_00-00-00" ⟨2025, 10, 12⟩
        "iso" ["grok_news_summary_1990-01-01_00-00-00.json"]).indexResult = none
    ∧ (fetch_main 500 "boom" (some ["x"]) "2025-10-12_00-00-00" ⟨2025, 10, 12⟩
        "iso" ["grok_news_summary_1990-01-01_00-00-00.json"]).report.isSome
        = true :=
  fetch_failure_no_archive_mutation 500 "boom" (some ["x"])
    "2025-10-12_00-00-00" ⟨2025, 10, 12⟩ "iso"
    ["grok_news_summary_1990-01-01_00-00-00.json"] (Or.inl (by decide))

/-- C7 (confirmed): the archive scan both builders use never lists the
manifest's own filename, whatever the directory contains. -/
theorem scan_excludes_index_json (listing : List String) :
    "index.json" ∉ scanNewsFiles listing := by
  intro h
  have h2 := (List.mem_filter.mp h).2
  simp at h2

/-- C9 (confirmed): on an existing directory with at least one entry, the
two builders produce the same `files` list and the same `total_files`
(only `last_updated` can differ); in particular they also fail alike when
a name's date digits are invalid. -/
theorem builders_agree_on_nonempty_archive (t u : String)
    (listing : List String) (h : scanNewsFiles listing ≠ []) :
    filesPart (update_index_json t true listing)
      = filesPart (build_news_index u true listing) := by
  have hne : (scanNewsFiles listing).isEmpty = false := by
    simpa using h
  by_cases hok : sortKeysOk (scanNewsFiles listing) = true
  · simp [update_index_json, build_news_index, hne, hok, filesPart]
  · simp [update_index_json, build_news_index, hne, hok, filesPart]

/-- C9 witness: both builders on a one-entry archive. -/
theorem builders_agree_witness :
    filesPart (update_index_json "t" true ["a_2025-01-01.json"])
      = filesPart (build_news_index "u" true ["a_2025-01-01.json"]) :=
  builders_agree_on_nonempty_archive "t" "u" ["a_2025-01-01.json"] (by decide)

/-- C10 (confirmed): anything the sweep deletes came from the directory
enumeration, matches the `*.json` glob, and is not `index.json`; every
other file is left alone. -/
theorem cleanup_only_removes_json_entries (nowDate : Date) :
    ∀ (listing : List String) (f : String),
      f ∈ (cleanup_old_news_files nowDate listing).1 →
      f ∈ listing ∧ jsonGlob f = true ∧ f ≠ "index.json"
  | [], f => by simp [cleanup_old_news_files]
  | g :: rest, f => by
    intro hmem
    have ih := cleanup_only_removes_json_entries nowDate rest
    cases hjson : jsonGlob g with
    | false =>
      simp only [cleanup_old_news_files, hjson] at hmem
      rw [if_pos trivial] at hmem
      obtain ⟨h1, h2, h3⟩ := ih f hmem
      exact ⟨List.mem_cons_of_mem g h1, h2, h3⟩
    | true =>
      by_cases hidx : g = "index.json"
      · subst hidx
        simp only [cleanup_old_news_files, hjson] at hmem
        rw [if_pos trivial] at hmem
        obtain ⟨h1, h2, h3⟩ := ih f hmem
        exact ⟨List.mem_cons_of_mem _ h1, h2, h3⟩
      · cases hd : extract_date_from_filename g with
        | none =>
          simp [cleanup_old_news_files, hjson, hidx, hd] at hmem
        | some d =>
          by_cases hold :
              d ≠ dateMin ∧ (toOrdinal d : Int) < (toOrdinal nowDate : Int) - 30
          · simp only [cleanup_old_news_files, hjson, hidx, hd] at hmem
            rw [if_neg not_false, if_pos hold] at hmem
            rcases List.mem_cons.mp hmem with rfl | hmem'
            · exact ⟨List.mem_cons_self f rest, hjson, hidx⟩
            · obtain ⟨h1, h2, h3⟩ := ih f hmem'
              exact ⟨List.mem_cons_of_mem _ h1, h2, h3⟩
          · simp only [cleanup_old_news_files, hjson, hidx, hd] at hmem
            rw [if_neg not_false, if_neg hold] at hmem
            obtain ⟨h1, h2, h3⟩ := ih f hmem
            exact ⟨List.mem_cons_of_mem _ h1, h2, h3⟩

/-- C10 witness: a deleted stale entry indeed is a non-manifest `*.json`
name from the directory. -/
theorem cleanup_only_removes_json_witness :
    "old_1990-01-01.json" ∈ ["old_1990-01-01.json", "notes.txt"]
    ∧ jsonGlob "old_1990-01-01.json" = true
    ∧ "old_1990-01-01.json" ≠ "index.json" :=
  cleanup_only_removes_json_entries ⟨2025, 1, 1⟩
    ["old_1990-01-01.json", "notes.txt"] "old_1990-01-01.json" (by decide)

theorem renderBlocksFrom_expanded :
    ∀ (i : Nat) (entries : List (Date × String)) (j : Nat) (b : RenderedBlock),
      (renderBlocksFrom i entries).get? j = some b →
      (b.expanded = true ↔ i + j = 0)
  | i, [], j, b => by simp [renderBlocksFrom]
  | i, e :: rest, 0, b => by
    intro h
    simp only [renderBlocksFrom, List.get?] at h
    injection h with h2
    subst h2
    simp only [beq_iff_eq]
    omega
  | i, e :: rest, j + 1, b => by
    intro h
    simp only [renderBlocksFrom, List.get?] at h
    have h2 := renderBlocksFrom_expanded (i + 1) rest j b h
    exact h2.trans (by omega)

/-- C8 (confirmed; modelled from the spec — the HTML Renderer has no source
under `src/`): in the rendered block list over newest-first entries, a
block is marked expanded exactly when it is the first one. -/
theorem render_first_block_expanded_iff (entries : List (Date × String))
    (j : Nat) (b : RenderedBlock)
    (h : (renderNewsHtml entries).get? j = some b) :
    b.expanded = true ↔ j = 0 := by
  have h2 := renderBlocksFrom_expanded 0 entries j b h
  simpa using h2

/-- C8 witness: two rendered entries — the first block is expanded. -/
theorem render_first_block_witness :
    (RenderedBlock.mk ⟨2025, 1, 2⟩ "a" true).expanded = true :=
  (render_first_block_expanded_iff [(⟨2025, 1, 2⟩, "a"), (⟨2025, 1, 1⟩, "b")]
    0 (RenderedBlock.mk ⟨2025, 1, 2⟩ "a" true) (by decide)).mpr rfl
